import Mathlib

/-!
Verification of the CodeRefine AI tool (`app.py`).

Python strings are embedded as `List Char` (`PyStr`).  The remote LLM
service is modelled as an oracle `LLM : PyStr → Except PyStr PyStr`
mapping a prompt either to a successful completion text (`Except.ok`)
or to a failure whose detail string is the rendering of the Python
exception (`Except.error`).  All functions of `app.py` that the claims
concern are translated below; file persistence is modelled by returning
the written `SavedFile` (path and content) instead of mutating a disk.
-/

namespace CodeRefine

/-- Python strings, embedded as lists of characters. -/
abbrev PyStr := List Char

/-- Convert a Lean string literal to the embedded representation. -/
def pyS (s : String) : PyStr := s.toList

/-- The whitespace predicate used by Python `str.strip()` (ASCII part,
which is all that the program's data can contain around the markers). -/
def isPySpace (c : Char) : Bool :=
  c = ' ' || c = '\t' || c = '\n' || c = '\r' || c = '\x0b' || c = '\x0c'

/-- `s.lstrip()`: drop leading whitespace. -/
def lstrip (s : PyStr) : PyStr := s.dropWhile isPySpace

/-- `s.rstrip()`: drop trailing whitespace. -/
def rstrip (s : PyStr) : PyStr := (s.reverse.dropWhile isPySpace).reverse

/-- Python `s.strip()`: drop leading and trailing whitespace. -/
def pyStrip (s : PyStr) : PyStr := rstrip (lstrip s)

/-- Python `pat in s`: does `pat` occur as a contiguous substring of `s`? -/
def containsSub (pat : PyStr) : PyStr → Bool
  | [] => pat.isPrefixOf []
  | c :: rest => pat.isPrefixOf (c :: rest) || containsSub pat rest

/-- Python `s.split(pat, 1)` when `pat` occurs in `s`: split at the FIRST
occurrence, returning the part before and the part after; `none` when
`pat` does not occur. -/
def splitMarker (pat : PyStr) : PyStr → Option (PyStr × PyStr)
  | [] => if pat.isPrefixOf ([] : PyStr) then some ([], []) else none
  | c :: rest =>
    if pat.isPrefixOf (c :: rest) then some ([], (c :: rest).drop pat.length)
    else
      match splitMarker pat rest with
      | some (pre, post) => some (c :: pre, post)
      | none => none

/-- The literal marker the review-response parser splits on (`app.py` line 67). -/
def markerFC : PyStr := pyS "Formatted Code:"

/-- The response-splitting step of `review_code` (`app.py` lines 67-72):
if `"Formatted Code:"` occurs in the result, split at the first
occurrence and strip both parts; otherwise the whole result (stripped)
is the review text and the formatted code is `""` (stripped). -/
def parseReview (result : PyStr) : PyStr × PyStr :=
  match splitMarker markerFC result with
  | some (pre, post) => (pyStrip pre, pyStrip post)
  | none => (pyStrip result, pyStrip [])

/-- The LLM endpoint, modelled as a fixed function from the prompt to
either the completion text or an error detail. -/
abbrev LLM := PyStr → Except PyStr PyStr

/-- `ask_llm` (`app.py` lines 28-37): forward the prompt to the remote
service; on success return the response content, on any exception
return the marked error string embedding the exception text.  The
Python `try/except` makes the function total: this definition is a
total Lean function, so no failure escapes to the caller. -/
def ask_llm (llm : LLM) (prompt : PyStr) : PyStr :=
  match llm prompt with
  | Except.ok t => t
  | Except.error e => pyS "❌ Connection error:\n" ++ e

/-- The `EXTENSIONS` table (`app.py` lines 16-22), in insertion order. -/
def EXTENSIONS : List (PyStr × PyStr) :=
  [ (pyS "Python", pyS ".py"),
    (pyS "C", pyS ".c"),
    (pyS "C++", pyS ".cpp"),
    (pyS "Java", pyS ".java"),
    (pyS "JavaScript", pyS ".js") ]

/-- Python `EXTENSIONS.get(lang, ".txt")`: dictionary lookup with a
plain-text default. -/
def extGet (lang : PyStr) : PyStr :=
  match EXTENSIONS.lookup lang with
  | some e => e
  | none => pyS ".txt"

/-- Python `s.endswith(suffix)`. -/
def endswith (s suf : PyStr) : Bool := suf.isSuffixOf s

/-- The review prompt f-string of `review_code` (`app.py` lines 43-65). -/
def reviewPrompt (code language : PyStr) : PyStr :=
  pyS "\nYou are a senior software engineer.\nAnalyze this " ++ language ++
  pyS " code.\n\nRules:\n• Keep explanation SHORT\n• Bullet points only\n• Max 5–6 points\n\nReturn EXACTLY:\n\nIssues:\n- ...\n\nFix Suggestions:\n- ...\n\nFormatted Code:\n<only corrected code>\n\nCode:\n" ++
  code ++ pyS "\n"

/-- The conversion prompt f-string of `convert_code` (`app.py` lines 75-82). -/
def convertPrompt (code source target : PyStr) : PyStr :=
  pyS "\nConvert this " ++ source ++ pyS " code to " ++ target ++
  pyS ".\nKeep the same logic.\nOnly output converted code.\n\nCode:\n" ++
  code ++ pyS "\n"

/-- The filename-suggestion prompt f-string of `generate_filename`
(`app.py` lines 98-104). -/
def filenamePrompt (code language : PyStr) : PyStr :=
  pyS "\nSuggest a **short, meaningful filename** (no spaces, lowercase) for this " ++
  language ++
  pyS " code. \nUse only one word if possible. Respond with only the filename, no extension.\n\nCode:\n" ++
  code ++ pyS "\n"

/-- `review_code` (`app.py` lines 42-72): build the review prompt, ask the
LLM, and split the result on the `"Formatted Code:"` marker. -/
def review_code (llm : LLM) (code language : PyStr) : PyStr × PyStr :=
  parseReview (ask_llm llm (reviewPrompt code language))

/-- `convert_code` (`app.py` lines 74-83). -/
def convert_code (llm : LLM) (code source target : PyStr) : PyStr :=
  ask_llm llm (convertPrompt code source target)

/-- `generate_filename` (`app.py` lines 97-109): ask the LLM for a base
name, strip it, fall back to `"my_code"` when the stripped suggestion is
empty, then append `_<suffix>` and the language's extension. -/
def generate_filename (llm : LLM) (code language suffix : PyStr) : PyStr :=
  let suggested_name := pyStrip (ask_llm llm (filenamePrompt code language))
  let suggested_name := if suggested_name = [] then pyS "my_code" else suggested_name
  suggested_name ++ pyS "_" ++ suffix ++ extGet language

/-- Python `s.rfind(c)` for a single character: highest index of `c` in
`s`, or `-1` when absent. -/
def rfindIdx (c : Char) : PyStr → Option Nat
  | [] => none
  | x :: rest =>
    match rfindIdx c rest with
    | some i => some (i + 1)
    | none => if x = c then some 0 else none

/-- `rfind` with Python's `-1` convention for a missing character. -/
def rfind (c : Char) (s : PyStr) : Int :=
  match rfindIdx c s with
  | some i => (i : Int)
  | none => -1

/-- `os.path.splitext` (posix): split off the extension at the last dot,
unless the dot only begins a dot-file name (every character between the
last path separator and the last dot is itself a dot). -/
def splitext (p : PyStr) : PyStr × PyStr :=
  let sepIndex := rfind '/' p
  let dotIndex := rfind '.' p
  if sepIndex < dotIndex then
    if ((p.drop (sepIndex + 1).toNat).take (dotIndex - (sepIndex + 1)).toNat).any
        (fun ch => ch ≠ '.') then
      (p.take dotIndex.toNat, p.drop dotIndex.toNat)
    else (p, [])
  else (p, [])

/-- A file persisted by `save_file`: its path and its exact content. -/
structure SavedFile where
  path : PyStr
  content : PyStr
deriving DecidableEq, Repr

/-- `save_file` (`app.py` lines 111-122): if the filename has no
extension, append `.txt`; write the text to the resulting path and
return it.  The best-effort editor launch (lines 118-121) has no effect
on the result and is omitted. -/
def save_file (text filename : PyStr) : SavedFile :=
  let ne := splitext filename
  let filename := if ne.2 = [] then ne.1 ++ pyS ".txt" else filename
  ⟨filename, text⟩

/-- The filename-resolution block shared verbatim by `analyze_prepare`
(`app.py` lines 191-196) and `convert_prepare` (lines 223-228), with
`lang` the target language of the current operation: a non-empty
trimmed user name is kept if it ends in any known extension, otherwise
the target language's extension is appended; an empty user name defers
to `generate_filename`. -/
def resolveFilename (llm : LLM) (user_filename language suffix code : PyStr) : PyStr :=
  if pyStrip user_filename ≠ [] then
    let filename := pyStrip user_filename
    if (EXTENSIONS.map Prod.snd).any (fun ext => endswith filename ext) then filename
    else filename ++ extGet language
  else generate_filename llm code language suffix

/-- `analyze_prepare` (`app.py` lines 189-198): run the review, resolve
the filename with suffix `"optimized"`, persist the formatted code. -/
def analyze_prepare (llm : LLM) (code lang user_filename : PyStr) :
    PyStr × PyStr × PyStr × SavedFile :=
  let rf := review_code llm code lang
  let filename := resolveFilename llm user_filename lang (pyS "optimized") code
  let saved := save_file rf.2 filename
  (rf.1, rf.2, filename, saved)

/-- `convert_prepare` (`app.py` lines 221-230): run the conversion,
resolve the filename against the TARGET language with suffix
`"converted"`, persist the converted code. -/
def convert_prepare (llm : LLM) (code src_lang tgt_lang user_filename : PyStr) :
    PyStr × PyStr × SavedFile :=
  let converted_code := convert_code llm code src_lang tgt_lang
  let filename := resolveFilename llm user_filename tgt_lang (pyS "converted") code
  let saved := save_file converted_code filename
  (converted_code, filename, saved)

/-- A chat message role. -/
inductive Role where
  | user
  | assistant
deriving DecidableEq, Repr

/-- One entry of the chat history. -/
structure ChatMessage where
  role : Role
  content : PyStr
deriving DecidableEq, Repr

/-- `chat_fn` (`app.py` lines 85-90): ask the LLM with the RAW message as
the entire prompt, default a missing (`None`) history to `[]`, append
the user message then the assistant reply, and return the cleared input
box together with the new history. -/
def chat_fn (llm : LLM) (message : PyStr) (history : Option (List ChatMessage)) :
    PyStr × List ChatMessage :=
  let reply := ask_llm llm message
  let history := history.getD []
  ([], history ++ [⟨Role.user, message⟩, ⟨Role.assistant, reply⟩])

/-- An always-succeeding LLM oracle returning the empty completion. -/
def llmOk : LLM := fun _ => Except.ok []

/-- An always-failing LLM oracle with error detail `"boom"`. -/
def llmErr : LLM := fun _ => Except.error (pyS "boom")

/-! ### Helper lemmas about the string primitives -/

/-- A successful `splitMarker` decomposes the input around the pattern. -/
theorem splitMarker_eq (pat : PyStr) :
    ∀ s pre post, splitMarker pat s = some (pre, post) → s = pre ++ pat ++ post := by
  intro s
  induction s with
  | nil =>
    intro pre post h
    simp only [splitMarker] at h
    split at h
    · rename_i hp
      rw [List.isPrefixOf_iff_prefix, List.prefix_nil] at hp
      injection h with h
      injection h with h1 h2
      subst h1; subst h2; subst hp
      rfl
    · cases h
  | cons c rest ih =>
    intro pre post h
    simp only [splitMarker] at h
    split at h
    · rename_i hp
      rw [List.isPrefixOf_iff_prefix] at hp
      obtain ⟨t, ht⟩ := hp
      injection h with h
      injection h with h1 h2
      subst h1; subst h2
      rw [← ht, List.nil_append, List.drop_left]
    · rename_i hp
      cases hm : splitMarker pat rest with
      | none => rw [hm] at h; cases h
      | some pp =>
        obtain ⟨pre2, post2⟩ := pp
        rw [hm] at h
        injection h with h
        injection h with h1 h2
        subst h1; subst h2
        have heq := ih pre2 post2 hm
        simp [heq]

/-- `splitMarker` succeeds exactly when the pattern occurs. -/
theorem splitMarker_isSome (pat : PyStr) :
    ∀ s, (splitMarker pat s).isSome = containsSub pat s := by
  intro s
  induction s with
  | nil =>
    by_cases hp : pat.isPrefixOf ([] : PyStr) = true <;>
      simp [splitMarker, containsSub, hp]
  | cons c rest ih =>
    simp only [splitMarker, containsSub]
    split
    · rename_i hp
      simp [hp]
    · rename_i hp
      rw [Bool.not_eq_true] at hp
      cases hm : splitMarker pat rest <;> simp [hm, hp, ← ih]

/-- Boolean substring containment agrees with the infix relation. -/
theorem containsSub_iff_occurs (pat : PyStr) :
    ∀ s, containsSub pat s = true ↔ pat <:+: s := by
  intro s
  induction s with
  | nil =>
    simp [containsSub, List.isPrefixOf_iff_prefix, List.infix_nil, List.prefix_nil]
  | cons c rest ih =>
    simp [containsSub, List.isPrefixOf_iff_prefix, List.infix_cons_iff, ih]

/-- The part before the first occurrence contains no further occurrence. -/
theorem splitMarker_pre (pat : PyStr) (hpat : pat ≠ []) :
    ∀ s pre post, splitMarker pat s = some (pre, post) → containsSub pat pre = false := by
  intro s
  induction s with
  | nil =>
    intro pre post h
    simp only [splitMarker] at h
    split at h
    · rename_i hp
      rw [List.isPrefixOf_iff_prefix, List.prefix_nil] at hp
      exact absurd hp hpat
    · cases h
  | cons c rest ih =>
    intro pre post h
    simp only [splitMarker] at h
    split at h
    · injection h with h
      injection h with h1 h2
      subst h1
      simp only [containsSub]
      rw [Bool.eq_false_iff]
      intro hq
      rw [List.isPrefixOf_iff_prefix, List.prefix_nil] at hq
      exact hpat hq
    · rename_i hp
      cases hm : splitMarker pat rest with
      | none => rw [hm] at h; cases h
      | some pp =>
        obtain ⟨pre2, post2⟩ := pp
        rw [hm] at h
        injection h with h
        injection h with h1 h2
        subst h1; subst h2
        have hco := ih pre2 post2 hm
        have heq := splitMarker_eq pat rest pre2 post2 hm
        simp only [containsSub, hco, Bool.or_false]
        cases hq : pat.isPrefixOf (c :: pre2) with
        | false => rfl
        | true =>
          exfalso
          apply hp
          rw [List.isPrefixOf_iff_prefix] at hq ⊢
          exact hq.trans ⟨pat ++ post2, by simp [heq]⟩

/-- `dropWhile` is idempotent. -/
theorem dropWhile_dropWhile {α : Type} (p : α → Bool) :
    ∀ l : List α, (l.dropWhile p).dropWhile p = l.dropWhile p := by
  intro l
  induction l with
  | nil => rfl
  | cons c rest ih =>
    by_cases h : p c <;> simp [List.dropWhile_cons, h, ih]

theorem lstrip_suffix (s : PyStr) : lstrip s <:+ s := List.dropWhile_suffix isPySpace

theorem rstrip_front (s : PyStr) : rstrip s <+: s := by
  unfold rstrip
  have h : (s.reverse.dropWhile isPySpace) <:+ s.reverse := List.dropWhile_suffix isPySpace
  have h2 := List.reverse_prefix.mpr h
  rwa [List.reverse_reverse] at h2

/-- Stripping yields a contiguous substring of the original. -/
theorem pyStrip_part (s : PyStr) : pyStrip s <:+: s :=
  ((rstrip_front (lstrip s)).isInfix).trans ((lstrip_suffix s).isInfix)

theorem lstrip_lstrip (s : PyStr) : lstrip (lstrip s) = lstrip s :=
  dropWhile_dropWhile isPySpace s

theorem rstrip_rstrip (s : PyStr) : rstrip (rstrip s) = rstrip s := by
  unfold rstrip
  rw [List.reverse_reverse, dropWhile_dropWhile]

theorem lstrip_of_rstrip_lstrip (s : PyStr) :
    lstrip (rstrip (lstrip s)) = rstrip (lstrip s) := by
  cases hc : rstrip (lstrip s) with
  | nil => rfl
  | cons c w =>
    have hpre : rstrip (lstrip s) <+: lstrip s := rstrip_front _
    rw [hc] at hpre
    obtain ⟨t, ht⟩ := hpre
    have hl : lstrip (lstrip s) = lstrip s := lstrip_lstrip s
    rw [← ht] at hl
    have hcfalse : isPySpace c = false := by
      cases hcc : isPySpace c with
      | false => rfl
      | true =>
        exfalso
        unfold lstrip at hl
        rw [List.cons_append, List.dropWhile_cons, hcc, if_pos rfl] at hl
        have hlen := (List.dropWhile_suffix (l := w ++ t) isPySpace).length_le
        rw [hl] at hlen
        simp at hlen
    unfold lstrip
    rw [List.dropWhile_cons, hcfalse]
    simp

/-- Python `strip` is idempotent. -/
theorem pyStrip_idem (s : PyStr) : pyStrip (pyStrip s) = pyStrip s := by
  unfold pyStrip
  rw [lstrip_of_rstrip_lstrip s, rstrip_rstrip]

/-- Non-containment is inherited by contiguous substrings. -/
theorem containsSub_false_mono (pat t s : PyStr) (hts : t <:+: s)
    (h : containsSub pat s = false) : containsSub pat t = false := by
  cases hq : containsSub pat t with
  | false => rfl
  | true =>
    exfalso
    have hi := (containsSub_iff_occurs pat t).mp hq
    have h2 := (containsSub_iff_occurs pat s).mpr (hi.trans hts)
    rw [h] at h2
    cases h2

/-- When the marker is absent, `parseReview` returns the stripped input
whole, with empty formatted code. -/
theorem parseReview_no_marker (s : PyStr) (h : containsSub markerFC s = false) :
    parseReview s = (pyStrip s, []) := by
  cases hm : splitMarker markerFC s with
  | none => simp [parseReview, hm]; rfl
  | some pp =>
    exfalso
    have hs := splitMarker_isSome markerFC s
    rw [hm, h] at hs
    cases hs

/-- The first component of `parseReview` is already stripped. -/
theorem parseReview_fst_stripped (s : PyStr) :
    pyStrip ((parseReview s).1) = (parseReview s).1 := by
  cases hm : splitMarker markerFC s with
  | none => simp [parseReview, hm, pyStrip_idem]
  | some pp =>
    obtain ⟨pre, post⟩ := pp
    simp [parseReview, hm, pyStrip_idem]

/-- The first component of `parseReview` never contains the marker. -/
theorem parseReview_fst_marker_free (s : PyStr) :
    containsSub markerFC ((parseReview s).1) = false := by
  cases hm : splitMarker markerFC s with
  | some pp =>
    obtain ⟨pre, post⟩ := pp
    have h1 : (parseReview s).1 = pyStrip pre := by simp [parseReview, hm]
    rw [h1]
    exact containsSub_false_mono _ _ _ (pyStrip_part pre)
      (splitMarker_pre markerFC (by decide) s pre post hm)
  | none =>
    have h1 : (parseReview s).1 = pyStrip s := by simp [parseReview, hm]
    have hcs : containsSub markerFC s = false := by
      have hs := splitMarker_isSome markerFC s
      rw [hm] at hs
      exact hs.symm
    rw [h1]
    exact containsSub_false_mono _ _ _ (pyStrip_part s) hcs

/-- An error string produced by `ask_llm` never strips to the empty
string: its first character `❌` is not whitespace. -/
theorem pyStrip_err_ne_nil (e : PyStr) :
    pyStrip (pyS "❌ Connection error:\n" ++ e) ≠ [] := by
  intro h
  have hx : pyS "❌ Connection error:\n" ++ e =
      '❌' :: (pyS " Connection error:\n" ++ e) := rfl
  rw [hx] at h
  unfold pyStrip lstrip rstrip at h
  rw [List.dropWhile_cons] at h
  rw [show isPySpace '❌' = false from rfl] at h
  simp only [if_neg Bool.false_ne_true] at h
  rw [List.reverse_eq_nil_iff, List.dropWhile_eq_nil_iff] at h
  have hmem := h '❌' (by simp)
  cases hmem

/-- `extGet` returns the extension paired with a language in `EXTENSIONS`. -/
theorem extGet_mem {language ext : PyStr} (h : (language, ext) ∈ EXTENSIONS) :
    extGet language = ext := by
  simp only [EXTENSIONS, List.mem_cons, List.not_mem_nil, or_false] at h
  rcases h with h | h | h | h | h <;>
    (rw [Prod.mk.injEq] at h; obtain ⟨h1, h2⟩ := h; subst h1; subst h2; rfl)

/-- Appending a suffix makes `endswith` hold. -/
theorem endswith_append (a b : PyStr) : endswith (a ++ b) b = true := by
  simp only [endswith, List.isSuffixOf_iff_suffix]
  exact List.suffix_append a b

/-! ### The claims -/

/-- C1 (amended): `parseReview` locates the first occurrence of the
literal substring `"Formatted Code:"`; if it occurs, it returns the text
before that first occurrence, trimmed of surrounding whitespace, as the
analysis text, and the text after it, trimmed, as the formatted code;
if it does not occur, it returns the entire raw text TRIMMED OF
SURROUNDING WHITESPACE as the analysis text and the empty string as the
formatted code.  (The original claim omitted the trimming in the
no-marker case.) -/
theorem parseReview_amended (s pre post : PyStr) :
    (containsSub markerFC s = false → parseReview s = (pyStrip s, [])) ∧
    (splitMarker markerFC s = some (pre, post) →
      s = pre ++ markerFC ++ post ∧ containsSub markerFC pre = false ∧
      parseReview s = (pyStrip pre, pyStrip post)) := by
  constructor
  · exact parseReview_no_marker s
  · intro h
    refine ⟨splitMarker_eq markerFC s pre post h,
      splitMarker_pre markerFC (by decide) s pre post h, ?_⟩
    simp [parseReview, h]

theorem parseReview_amended_witness :
    splitMarker markerFC (pyS "Issues:\n- a\n\nFormatted Code:\nprint(1)") =
      some (pyS "Issues:\n- a\n\n", pyS "\nprint(1)") ∧
    parseReview (pyS "Issues:\n- a\n\nFormatted Code:\nprint(1)") =
      (pyS "Issues:\n- a", pyS "print(1)") := by
  constructor
  · decide
  · have h := ((parseReview_amended (pyS "Issues:\n- a\n\nFormatted Code:\nprint(1)")
      (pyS "Issues:\n- a\n\n") (pyS "\nprint(1)")).2 (by decide)).2.2
    rw [h]
    decide

/-- C1 counterexample: on a marker-free input with leading whitespace,
the code returns the STRIPPED text, not the entire raw text as the
claim states. -/
theorem parseReview_counter :
    containsSub markerFC (pyS " x") = false ∧
    parseReview (pyS " x") = (pyS "x", []) ∧
    (parseReview (pyS " x")).1 ≠ pyS " x" :=
  ⟨by decide, by decide, by decide⟩

/-- C2: `ask_llm` is a total function of the oracle's outcome (the
`try/except` never lets a failure escape); on success it returns the
remote response text, and on any failure it returns the marked
user-displayable string embedding the error detail. -/
theorem ask_llm_total (llm : LLM) (prompt : PyStr) :
    (∀ t, llm prompt = Except.ok t → ask_llm llm prompt = t) ∧
    (∀ e, llm prompt = Except.error e →
      ask_llm llm prompt = pyS "❌ Connection error:\n" ++ e) := by
  constructor <;> intro x h <;> simp [ask_llm, h]

theorem ask_llm_total_witness :
    ask_llm llmErr [] = pyS "❌ Connection error:\n" ++ pyS "boom" :=
  (ask_llm_total llmErr []).2 (pyS "boom") rfl

/-- C7: `parseReview` is idempotent on the split point: the analysis
text it returns never contains the marker `"Formatted Code:"`, so
re-splitting it finds no marker and returns it whole with an empty
second component. -/
theorem parseReview_idem (s : PyStr) :
    containsSub markerFC ((parseReview s).1) = false ∧
    parseReview ((parseReview s).1) = ((parseReview s).1, []) := by
  refine ⟨parseReview_fst_marker_free s, ?_⟩
  rw [parseReview_no_marker _ (parseReview_fst_marker_free s), parseReview_fst_stripped s]

/-- C3: saving under the user-supplied filename `"demo"` in a conversion
whose target language is JavaScript resolves the name to `"demo.js"`
and persists exactly the supplied (converted) content at that path,
unmodified. -/
theorem convert_prepare_demo_js (llm : LLM) (code src_lang : PyStr) :
    convert_prepare llm code src_lang (pyS "JavaScript") (pyS "demo") =
      (convert_code llm code src_lang (pyS "JavaScript"), pyS "demo.js",
        ⟨pyS "demo.js", convert_code llm code src_lang (pyS "JavaScript")⟩) := rfl

/-- C4 (amended): for a user-supplied name whose TRIMMED form is
non-empty, the resolved filename equals the trimmed name unchanged when
the trimmed name ends with the known extension of any supported
language, and otherwise equals the trimmed name with the target
language's extension appended.  (The original claim returned the
user-supplied name itself; the code first trims it.) -/
theorem resolveFilename_user_amended (llm : LLM) (user_filename language suffix code : PyStr)
    (h : pyStrip user_filename ≠ []) :
    ((EXTENSIONS.map Prod.snd).any (fun ext => endswith (pyStrip user_filename) ext) = true →
      resolveFilename llm user_filename language suffix code = pyStrip user_filename) ∧
    ((EXTENSIONS.map Prod.snd).any (fun ext => endswith (pyStrip user_filename) ext) = false →
      resolveFilename llm user_filename language suffix code =
        pyStrip user_filename ++ extGet language) := by
  constructor <;> intro hext <;> simp [resolveFilename, h, hext]

theorem resolveFilename_user_amended_witness :
    resolveFilename llmOk (pyS "demo.js") (pyS "Python") (pyS "optimized") [] =
      pyS "demo.js" := by
  have h := (resolveFilename_user_amended llmOk (pyS "demo.js") (pyS "Python")
    (pyS "optimized") [] (by decide)).1 (by decide)
  rw [h]
  decide

/-- C4 counterexample: a user-supplied name with surrounding whitespace
ending in a known extension is NOT returned unchanged: the code trims
it first. -/
theorem resolveFilename_counter :
    pyStrip (pyS " demo.js") ≠ [] ∧
    endswith (pyS " demo.js") (pyS ".js") = true ∧
    resolveFilename llmOk (pyS " demo.js") (pyS "Python") (pyS "optimized") [] =
      pyS "demo.js" ∧
    resolveFilename llmOk (pyS " demo.js") (pyS "Python") (pyS "optimized") [] ≠
      pyS " demo.js" :=
  ⟨by decide, by decide, by decide, by decide⟩

/-- C5 (amended): with no user-supplied filename, the resolver asks the
remote suggestion call for a candidate base name and falls back to the
fixed default `"my_code"` exactly when the TRIMMED candidate is empty;
an error string returned by the fail-soft completion client is
non-empty after trimming, so it is NOT replaced by the default and
becomes the base name itself; in both cases `_<suffix>` and the
language's extension are appended.  (The original claim said an error
string also triggers the default fallback.) -/
theorem generate_filename_amended (llm : LLM) (code language suffix : PyStr) :
    (pyStrip (ask_llm llm (filenamePrompt code language)) = [] →
      generate_filename llm code language suffix =
        pyS "my_code" ++ pyS "_" ++ suffix ++ extGet language) ∧
    (∀ e, llm (filenamePrompt code language) = Except.error e →
      pyStrip (pyS "❌ Connection error:\n" ++ e) ≠ [] ∧
      generate_filename llm code language suffix =
        pyStrip (pyS "❌ Connection error:\n" ++ e) ++ pyS "_" ++ suffix ++ extGet language) := by
  constructor
  · intro hs
    simp [generate_filename, hs]
  · intro e he
    refine ⟨pyStrip_err_ne_nil e, ?_⟩
    simp only [generate_filename, ask_llm, he]
    rw [if_neg (pyStrip_err_ne_nil e)]

theorem generate_filename_amended_witness :
    pyStrip (pyS "❌ Connection error:\n" ++ pyS "boom") ≠ [] ∧
    generate_filename llmErr (pyS "x") (pyS "Python") (pyS "optimized") =
      pyS "❌ Connection error:\nboom_optimized.py" := by
  have h := (generate_filename_amended llmErr (pyS "x") (pyS "Python") (pyS "optimized")).2
    (pyS "boom") rfl
  exact ⟨h.1, h.2.trans (by decide)⟩

/-- C5 counterexample: when the suggestion call fails, the resolver does
NOT fall back to the default base name; the error string itself becomes
the base of the generated filename. -/
theorem generate_filename_counter :
    resolveFilename llmErr (pyS "") (pyS "Python") (pyS "optimized") (pyS "x") =
      pyS "❌ Connection error:\nboom_optimized.py" ∧
    resolveFilename llmErr (pyS "") (pyS "Python") (pyS "optimized") (pyS "x") ≠
      pyS "my_code_optimized.py" :=
  ⟨by decide, by decide⟩

/-- C6: for every supported language and every code input and oracle,
resolving a filename with an empty user-supplied name and purpose
suffix `"optimized"` yields a name ending in the language's canonical
extension. -/
theorem resolveFilename_default_ext (llm : LLM) (code language ext : PyStr)
    (h : (language, ext) ∈ EXTENSIONS) :
    endswith (resolveFilename llm (pyS "") language (pyS "optimized") code) ext = true := by
  have h0 : pyStrip (pyS "") = [] := rfl
  have hres : resolveFilename llm (pyS "") language (pyS "optimized") code =
      generate_filename llm code language (pyS "optimized") := by
    simp [resolveFilename, h0]
  rw [hres]
  simp only [generate_filename]
  rw [extGet_mem h]
  exact endswith_append _ ext

theorem resolveFilename_default_ext_witness :
    (pyS "C++", pyS ".cpp") ∈ EXTENSIONS ∧
    endswith (resolveFilename llmOk (pyS "") (pyS "C++") (pyS "optimized") [])
      (pyS ".cpp") = true :=
  ⟨by decide, resolveFilename_default_ext llmOk [] (pyS "C++") (pyS ".cpp") (by decide)⟩

/-- C8: each chat turn appends exactly one user message followed by one
assistant message (the existing history is kept as a prefix, so entries
are never removed); from the empty history, two submitted messages
leave exactly 4 entries in strict alternating user/assistant order,
oldest first. -/
theorem chat_fn_appends (llm : LLM) (m1 m2 : PyStr) (h : List ChatMessage) :
    (chat_fn llm m1 (some h)).2 =
      h ++ [⟨Role.user, m1⟩, ⟨Role.assistant, ask_llm llm m1⟩] ∧
    h <+: (chat_fn llm m1 (some h)).2 ∧
    (chat_fn llm m2 (some (chat_fn llm m1 (some [])).2)).2 =
      [⟨Role.user, m1⟩, ⟨Role.assistant, ask_llm llm m1⟩,
       ⟨Role.user, m2⟩, ⟨Role.assistant, ask_llm llm m2⟩] ∧
    ((chat_fn llm m2 (some (chat_fn llm m1 (some [])).2)).2).length = 4 :=
  ⟨rfl, ⟨_, rfl⟩, rfl, rfl⟩

/-- C9: the assistant reply of a chat turn depends only on the submitted
message, never on the prior history: the prompt forwarded to the
completion client is exactly the raw user message, and the two entries
appended beyond the prior history are identical for any two histories. -/
theorem chat_reply_independent (llm : LLM) (m : PyStr)
    (h1 h2 : Option (List ChatMessage)) :
    ((chat_fn llm m h1).2).drop ((h1.getD []).length) =
      [⟨Role.user, m⟩, ⟨Role.assistant, ask_llm llm m⟩] ∧
    ((chat_fn llm m h1).2).drop ((h1.getD []).length) =
      ((chat_fn llm m h2).2).drop ((h2.getD []).length) := by
  have key : ∀ h : Option (List ChatMessage),
      ((chat_fn llm m h).2).drop ((h.getD []).length) =
        [⟨Role.user, m⟩, ⟨Role.assistant, ask_llm llm m⟩] := by
    intro h
    exact List.drop_left _ _
  exact ⟨key h1, (key h1).trans (key h2).symm⟩

/-- C10: a chat turn with a missing (`None`) history treats it as the
empty history: it returns the same result as with `[]`, namely the
cleared input string and a two-entry history of the user message
followed by the assistant reply. -/
theorem chat_fn_none (llm : LLM) (m : PyStr) :
    chat_fn llm m none = chat_fn llm m (some []) ∧
    chat_fn llm m none = ([], [⟨Role.user, m⟩, ⟨Role.assistant, ask_llm llm m⟩]) :=
  ⟨rfl, rfl⟩

end CodeRefine
